import Mathlib

/-!
Verification of the Mindstorms GCP Cloud Function command bridge
(`index.js`): the command validator/translator (`validateCommand` and the
`controlRobot` switch) and the TCP framing state machine inside
`sendCommandToRobot`.

Strings from the wire are modelled as `List Char`; `JSON.parse` is modelled
by a JSON grammar parser over `List Char`; the event-driven socket handlers
are modelled as a step function over a session state driven by a list of
events (data chunk / timeout / error / close).
-/

namespace MindstormsBridge

/-- Whitespace accepted by the JSON grammar (as in `JSON.parse`). -/
def isJsonWs (c : Char) : Bool :=
  c = ' ' || c = '\t' || c = '\n' || c = '\r'

/-- Whitespace trimmed by JavaScript `String.prototype.trim` (ASCII part). -/
def isTrimWs (c : Char) : Bool :=
  c = ' ' || c = '\t' || c = '\n' || c = '\r' || c = '\x0b' || c = '\x0c'

/-- Model of `s.trim()`: drop whitespace from both ends. -/
def trimChars (l : List Char) : List Char :=
  ((l.dropWhile isTrimWs).reverse.dropWhile isTrimWs).reverse

/-- Model of `s.includes(pat)`: substring containment test. -/
def strIncludes : List Char → List Char → Bool
  | [], pat => pat.isEmpty
  | c :: t, pat => pat.isPrefixOf (c :: t) || strIncludes t pat

/-- Model of `s.split('\n')` on character lists: JavaScript `String.split`
with a one-character separator. Always returns at least one segment. -/
def splitLines : List Char → List (List Char)
  | [] => [[]]
  | c :: rest =>
    if c = '\n' then [] :: splitLines rest
    else
      match splitLines rest with
      | [] => [[c]]
      | h :: t => (c :: h) :: t

/-- Model of `messages.pop() || ''`: the last segment of the split, or the
empty string for an empty list. -/
def lastSegment : List (List Char) → List Char
  | [] => []
  | [x] => x
  | _ :: rest => lastSegment rest

/-- Leading whitespace skipping in the JSON grammar. -/
def skipWs : List Char → List Char
  | [] => []
  | c :: rest => if isJsonWs c then skipWs rest else c :: rest

/-- JSON values as produced by the modelled `JSON.parse`. Number literals are
kept verbatim (no numeric claim inspects a parsed number's value). -/
inductive Json where
  | null
  | bool (b : Bool)
  | num (lit : List Char)
  | str (s : List Char)
  | arr (items : List Json)
  | obj (fields : List (List Char × Json))

/-- Hex digit value, for `\u` escapes. -/
def hexVal (c : Char) : Option Nat :=
  if '0' ≤ c ∧ c ≤ '9' then some (c.toNat - '0'.toNat)
  else if 'a' ≤ c ∧ c ≤ 'f' then some (c.toNat - 'a'.toNat + 10)
  else if 'A' ≤ c ∧ c ≤ 'F' then some (c.toNat - 'A'.toNat + 10)
  else none

/-- Parse a JSON string body after the opening quote; returns the decoded
content and the remainder after the closing quote. -/
def parseStringBody : Nat → List Char → Option (List Char × List Char)
  | 0, _ => none
  | _ + 1, [] => none
  | fuel + 1, c :: rest =>
    if c = '"' then some ([], rest)
    else if c = '\\' then
      match rest with
      | [] => none
      | e :: rest2 =>
        if e = '"' then (parseStringBody fuel rest2).map (fun p => ('"' :: p.1, p.2))
        else if e = '\\' then (parseStringBody fuel rest2).map (fun p => ('\\' :: p.1, p.2))
        else if e = '/' then (parseStringBody fuel rest2).map (fun p => ('/' :: p.1, p.2))
        else if e = 'b' then (parseStringBody fuel rest2).map (fun p => ('\x08' :: p.1, p.2))
        else if e = 'f' then (parseStringBody fuel rest2).map (fun p => ('\x0c' :: p.1, p.2))
        else if e = 'n' then (parseStringBody fuel rest2).map (fun p => ('\n' :: p.1, p.2))
        else if e = 'r' then (parseStringBody fuel rest2).map (fun p => ('\r' :: p.1, p.2))
        else if e = 't' then (parseStringBody fuel rest2).map (fun p => ('\t' :: p.1, p.2))
        else if e = 'u' then
          match rest2 with
          | h1 :: h2 :: h3 :: h4 :: rest3 =>
            match hexVal h1, hexVal h2, hexVal h3, hexVal h4 with
            | some a, some b, some c2, some d =>
              (parseStringBody fuel rest3).map
                (fun p => (Char.ofNat (((a * 16 + b) * 16 + c2) * 16 + d) :: p.1, p.2))
            | _, _, _, _ => none
          | _ => none
        else none
    else if c.toNat < 32 then none
    else (parseStringBody fuel rest).map (fun p => (c :: p.1, p.2))

/-- Take a maximal run of decimal digits. -/
def takeDigits : List Char → (List Char × List Char)
  | [] => ([], [])
  | c :: rest =>
    if '0' ≤ c ∧ c ≤ '9' then
      match takeDigits rest with
      | (ds, r) => (c :: ds, r)
    else ([], c :: rest)

/-- JSON number grammar: integer part (`0` or nonzero-led digits). -/
def parseIntPart : List Char → Option (List Char × List Char)
  | [] => none
  | c :: rest =>
    if c = '0' then some ([c], rest)
    else if '1' ≤ c ∧ c ≤ '9' then
      match takeDigits rest with
      | (ds, r) => some (c :: ds, r)
    else none

/-- JSON number grammar: optional fraction part. -/
def parseFracPart (l : List Char) : Option (List Char × List Char) :=
  match l with
  | '.' :: rest =>
    match takeDigits rest with
    | ([], _) => none
    | (ds, r) => some ('.' :: ds, r)
  | _ => some ([], l)

/-- JSON number grammar: optional exponent part. -/
def parseExpPart (l : List Char) : Option (List Char × List Char) :=
  match l with
  | [] => some ([], [])
  | c :: rest =>
    if c = 'e' ∨ c = 'E' then
      match rest with
      | [] => none
      | s :: rest2 =>
        if s = '+' ∨ s = '-' then
          match takeDigits rest2 with
          | ([], _) => none
          | (ds, r) => some (c :: s :: ds, r)
        else
          match takeDigits rest with
          | ([], _) => none
          | (ds, r) => some (c :: ds, r)
    else some ([], l)

/-- JSON number grammar, after an optional leading minus sign. -/
def parseNumberCore (l : List Char) : Option (List Char × List Char) := do
  let (i, r1) ← parseIntPart l
  let (f, r2) ← parseFracPart r1
  let (e, r3) ← parseExpPart r2
  some (i ++ f ++ e, r3)

/-- JSON number grammar, with optional leading minus sign. -/
def parseNumber (l : List Char) : Option (List Char × List Char) :=
  match l with
  | '-' :: rest => (parseNumberCore rest).map (fun p => ('-' :: p.1, p.2))
  | _ => parseNumberCore l

mutual

/-- Parse one JSON value (fueled recursive descent). -/
def parseValue : Nat → List Char → Option (Json × List Char)
  | 0, _ => none
  | _ + 1, [] => none
  | fuel + 1, c :: rest =>
    if c = '\x7b' then
      match skipWs rest with
      | '\x7d' :: r => some (.obj [], r)
      | other => (parseMembers fuel other).map (fun p => (.obj p.1, p.2))
    else if c = '[' then
      match skipWs rest with
      | ']' :: r => some (.arr [], r)
      | other => (parseItems fuel other).map (fun p => (.arr p.1, p.2))
    else if c = '"' then
      (parseStringBody (rest.length + 1) rest).map (fun p => (.str p.1, p.2))
    else if c = 't' then
      match rest with
      | 'r' :: 'u' :: 'e' :: r => some (.bool true, r)
      | _ => none
    else if c = 'f' then
      match rest with
      | 'a' :: 'l' :: 's' :: 'e' :: r => some (.bool false, r)
      | _ => none
    else if c = 'n' then
      match rest with
      | 'u' :: 'l' :: 'l' :: r => some (.null, r)
      | _ => none
    else
      (parseNumber (c :: rest)).map (fun p => (.num p.1, p.2))

/-- Parse the members of a JSON object (input begins at a key's quote). -/
def parseMembers : Nat → List Char → Option (List (List Char × Json) × List Char)
  | 0, _ => none
  | fuel + 1, l =>
    match l with
    | '"' :: rest => do
      let (k, r1) ← parseStringBody (rest.length + 1) rest
      match skipWs r1 with
      | ':' :: r2 => do
        let (v, r3) ← parseValue fuel (skipWs r2)
        match skipWs r3 with
        | ',' :: r4 => do
          let (ms, r5) ← parseMembers fuel (skipWs r4)
          some ((k, v) :: ms, r5)
        | '\x7d' :: r4 => some ([(k, v)], r4)
        | _ => none
      | _ => none
    | _ => none

/-- Parse the items of a JSON array (input begins at the first item). -/
def parseItems : Nat → List Char → Option (List Json × List Char)
  | 0, _ => none
  | fuel + 1, l => do
    let (v, r1) ← parseValue fuel l
    match skipWs r1 with
    | ',' :: r2 => do
      let (vs, r3) ← parseItems fuel (skipWs r2)
      some (v :: vs, r3)
    | ']' :: r2 => some ([v], r2)
    | _ => none

end

/-- Model of `JSON.parse(s)`: parse one value surrounded by optional
whitespace; any trailing garbage makes the parse fail. -/
def jsonParse (l : List Char) : Option Json :=
  match parseValue (l.length + 1) (skipWs l) with
  | some (v, rest) => if (skipWs rest).isEmpty then some v else none
  | none => none

/-! ### Transport framing state machine (`sendCommandToRobot`)

The `data` / `timeout` / `error` / `close` socket handlers are modelled as a
step function over a per-session state, driven by a list of events. Once the
promise is settled the socket is destroyed, so later events have no effect. -/

/-- A settled response: either parsed JSON (`resolve(parsed)`) or the
plain-text fallback (`resolve({success: true, response: message.trim()})`). -/
inductive Response where
  | parsed (v : Json)
  | fallback (text : List Char)

/-- Terminal outcome of a session: `resolve`, timeout `reject`, or error
`reject`. -/
inductive Outcome where
  | resolved (r : Response)
  | timedOut
  | connErrored

/-- Socket events delivered to the handlers registered in
`sendCommandToRobot`. -/
inductive Event where
  | data (chunk : List Char)
  | timeout
  | connError
  | close

/-- Per-session state: the accumulation buffer and the settled outcome, if
any. -/
structure SessionState where
  buffer : List Char
  outcome : Option Outcome

/-- Initial session state: empty buffer, promise pending. -/
def initialState : SessionState := { buffer := [], outcome := none }

/-- The greeting filter of the data handler:
`message.includes('Welcome') || message.includes('Send JSON')`. -/
def isGreeting (l : List Char) : Bool :=
  strIncludes l ("Welcome".toList) || strIncludes l ("Send JSON".toList)

/-- The per-line loop of the data handler: skip empty lines, skip greeting
lines, resolve with parsed JSON, otherwise resolve with the trimmed fallback
text. Returns the resolution produced by the first line that yields one. -/
def processLines : List (List Char) → Option Response
  | [] => none
  | l :: rest =>
    if (trimChars l).isEmpty then processLines rest
    else if isGreeting l then processLines rest
    else
      match jsonParse l with
      | some v => some (.parsed v)
      | none =>
        if (trimChars l).length > 0 then some (.fallback (trimChars l))
        else processLines rest

/-- One socket event. `data`: append the chunk, split on newlines, keep the
last segment as the new buffer, run the line loop on the complete lines.
`timeout` / `error`: reject. `close`: the handler only logs — the state is
unchanged and the session stays unsettled. -/
def stepEvent (s : SessionState) (e : Event) : SessionState :=
  match s.outcome with
  | some _ => s
  | none =>
    match e with
    | .data chunk =>
      let parts := splitLines (s.buffer ++ chunk)
      let buf := lastSegment parts
      match processLines parts.dropLast with
      | some r => { buffer := buf, outcome := some (.resolved r) }
      | none => { buffer := buf, outcome := none }
    | .timeout => { s with outcome := some .timedOut }
    | .connError => { s with outcome := some .connErrored }
    | .close => s

/-- Run one session over a list of socket events. -/
def runSession (events : List Event) : SessionState :=
  events.foldl stepEvent initialState

/-- The complete lines of a stream: all split segments except the trailing
(as-yet-unterminated) remainder. -/
def completeLines (s : List Char) : List (List Char) :=
  (splitLines s).dropLast

/-- A line the data handler accepts as the response: neither
empty/whitespace-only nor a greetingline. -/
def lineAccepted (l : List Char) : Bool :=
  !(trimChars l).isEmpty && !(isGreeting l)

/-- The response derived from an accepted line: parsed JSON if `JSON.parse`
succeeds, else the trimmed fallback text. -/
def respond (l : List Char) : Response :=
  match jsonParse l with
  | some v => .parsed v
  | none => .fallback (trimChars l)

/-! ### Command validation and translation (`validateCommand`, `controlRobot`) -/

/-- A JavaScript parameter value, as far as the validator inspects it:
a number, a string, or a boolean. -/
inductive PVal where
  | num (n : Int)
  | str (s : String)
  | boolV (b : Bool)
deriving DecidableEq, Repr

/-- The caller-supplied `params` bag; `none` models an absent property. -/
structure Params where
  speed : Option Int
  duration : Option Int
  frequency : Option Int
  l_left : Option Int
  l_forward : Option Int
  r_left : Option Int
  r_forward : Option Int
  text : Option PVal
deriving DecidableEq, Repr

/-- A params bag with every property absent. -/
def pNone : Params :=
  { speed := none, duration := none, frequency := none, l_left := none,
    l_forward := none, r_left := none, r_forward := none, text := none }

/-- Validation / orchestration errors raised by `validateCommand` and the
`controlRobot` switch default. -/
inductive VErr where
  | invalidCommand
  | speedRange
  | durationRange
  | textRequired
  | textTooLong
  | unsupported
deriving DecidableEq, Repr

/-- The `validCommands` array of `validateCommand`. -/
def validCommands : List String :=
  ["forward", "backward", "left", "right", "turret_left", "turret_right",
   "stop", "stop_turret", "get_status", "joystick_control", "get_help",
   "speak", "battery", "beep"]

/-- Model of `params.speed && (params.speed < 0 || params.speed > 2000)`: the guard is
truthy only for a present, nonzero speed. -/
def speedCheckFails (p : Params) : Bool :=
  match p.speed with
  | some s => (s != 0) && (decide (s < 0) || decide (s > 2000))
  | none => false

/-- Model of `params.duration && params.duration > 10`: truthy only for a
present, nonzero duration. -/
def durationCheckFails (p : Params) : Bool :=
  match p.duration with
  | some d => (d != 0) && decide (d > 10)
  | none => false

/-- Model of `!params.text || typeof params.text !== 'string'`: absent, falsy (the
empty string, zero, false) or non-string text fails the required check. -/
def textFalsyOrNotString (t : Option PVal) : Bool :=
  match t with
  | some (PVal.str s) => s == ""
  | _ => true

/-- Model of `params.text.length` where the required check has already passed. -/
def textLength (t : Option PVal) : Nat :=
  match t with
  | some (PVal.str s) => s.length
  | _ => 0

/-- Model of `validateCommand(command, params)`: `Except.error` models a
thrown exception. -/
def validateCommand (c : String) (p : Params) : Except VErr Unit :=
  if c ∉ validCommands then .error .invalidCommand
  else if speedCheckFails p then .error .speedRange
  else if durationCheckFails p then .error .durationRange
  else if c = "speak" then
    if textFalsyOrNotString p.text then .error .textRequired
    else if textLength p.text > 500 then .error .textTooLong
    else .ok ()
  else .ok ()

/-- The serialized wire object: its fields in insertion order, exactly as
`JSON.stringify` emits them. -/
def WireRecord := List (String × PVal)

/-- One step of `Object.assign(command, params)`: overwrite an existing key
in place, otherwise append. -/
def assignField (fs : List (String × PVal)) (kv : String × PVal) :
    List (String × PVal) :=
  if fs.any (fun f => f.1 == kv.1) then
    fs.map (fun f => if f.1 == kv.1 then kv else f)
  else fs ++ [kv]

/-- Model of `Object.assign(command, params)` over all extra parameters. -/
def assignFields (fs : List (String × PVal)) (extra : List (String × PVal)) :
    List (String × PVal) :=
  extra.foldl assignField fs

/-- The command-object construction in `sendCommandToRobot` (lines 23–32):
start from `{action}`, add `direction` if truthy, add `speed`/`duration` if
not null, then `Object.assign` the extra parameters. -/
def buildCommand (action : String) (direction : Option String)
    (speed duration : Option Int) (extra : List (String × PVal)) : WireRecord :=
  let b0 := [("action", PVal.str action)]
  let b1 := match direction with
    | some d => if d ≠ "" then b0 ++ [("direction", PVal.str d)] else b0
    | none => b0
  let b2 := match speed with
    | some s => b1 ++ [("speed", PVal.num s)]
    | none => b1
  let b3 := match duration with
    | some d => b2 ++ [("duration", PVal.num d)]
    | none => b2
  assignFields b3 extra

/-- JavaScript `x || d` for our numeric parameters: a present nonzero value
is kept, an absent or zero value falls back to the default. -/
def orDefault (v : Option Int) (d : Int) : Int :=
  match v with
  | some x => if x = 0 then d else x
  | none => d

/-- The switch over `command` in `controlRobot` (lines 190–267), composed with
the command-object construction of `sendCommandToRobot`. For `speak`, a
`text` key with an `undefined` value would be dropped by `JSON.stringify`,
so an absent `params.text` contributes no field. -/
def translateCmd (c : String) (p : Params) : Option WireRecord :=
  if c = "forward" then
    some (buildCommand "move" (some "forward")
      (some (orDefault p.speed 500)) (some (orDefault p.duration 0)) [])
  else if c = "backward" then
    some (buildCommand "move" (some "backward")
      (some (orDefault p.speed 500)) (some (orDefault p.duration 0)) [])
  else if c = "left" then
    some (buildCommand "move" (some "left")
      (some (orDefault p.speed 300)) (some (orDefault p.duration 0)) [])
  else if c = "right" then
    some (buildCommand "move" (some "right")
      (some (orDefault p.speed 300)) (some (orDefault p.duration 0)) [])
  else if c = "turret_left" then
    some (buildCommand "turret" (some "left")
      (some (orDefault p.speed 200)) (some (orDefault p.duration 0)) [])
  else if c = "turret_right" then
    some (buildCommand "turret" (some "right")
      (some (orDefault p.speed 200)) (some (orDefault p.duration 0)) [])
  else if c = "stop" then some (buildCommand "stop" none none none [])
  else if c = "stop_turret" then some (buildCommand "stop_turret" none none none [])
  else if c = "get_status" then some (buildCommand "status" none none none [])
  else if c = "get_help" then some (buildCommand "help" none none none [])
  else if c = "joystick_control" then
    some (buildCommand "joystick" none none none
      [("l_left", PVal.num (orDefault p.l_left 0)),
       ("l_forward", PVal.num (orDefault p.l_forward 0)),
       ("r_left", PVal.num (orDefault p.r_left 0)),
       ("r_forward", PVal.num (orDefault p.r_forward 0))])
  else if c = "speak" then
    some (buildCommand "speak" none none none
      (match p.text with
       | some v => [("text", v)]
       | none => []))
  else if c = "battery" then some (buildCommand "battery" none none none [])
  else if c = "beep" then
    some (buildCommand "beep" none none none
      ((match p.frequency with
        | some f => [("frequency", PVal.num f)]
        | none => []) ++
       (match p.duration with
        | some d => [("duration", PVal.num d)]
        | none => [])))
  else none

/-- Model of the `controlRobot` handler up to the transport call: validate,
then translate. `Except.ok` carries the wire record passed to
`sendCommandToRobot`; on `Except.error` no connection attempt is made (the
thrown error is caught and returned as an HTTP error before any I/O). -/
def controlRobot (c : String) (p : Params) : Except VErr WireRecord :=
  match validateCommand c p with
  | .error e => .error e
  | .ok () =>
    match translateCmd c p with
    | some w => .ok w
    | none => .error .unsupported

/-! ### Framing lemmas -/

/-- Prepend a prefix onto the first segment of a split (the shape produced
by splitting `pre ++ rest` when `pre` has no newline). -/
def consFirst (pre : List Char) : List (List Char) → List (List Char)
  | [] => [pre]
  | h :: t => (pre ++ h) :: t

theorem consFirst_ne_nil (pre : List Char) (l : List (List Char)) :
    consFirst pre l ≠ [] := by
  cases l <;> simp [consFirst]

theorem splitLines_ne_nil : ∀ l : List Char, splitLines l ≠ []
  | [] => by simp [splitLines]
  | c :: rest => by
    simp only [splitLines]
    split
    · simp
    · split <;> simp

theorem dropLast_append_ne {α : Type} (xs : List α) {ys : List α} (h : ys ≠ []) :
    (xs ++ ys).dropLast = xs ++ ys.dropLast := by
  obtain ⟨z, zs, rfl⟩ := List.exists_cons_of_ne_nil h
  exact List.dropLast_append_cons

theorem splitLines_eq_single (l : List Char) (h : '\n' ∉ l) :
    splitLines l = [l] := by
  induction l with
  | nil => rfl
  | cons c t ih =>
    have hc : ¬(c = '\n') := fun e => h (e ▸ List.mem_cons_self c t)
    have ht : '\n' ∉ t := fun m => h (List.mem_cons_of_mem _ m)
    simp [splitLines, hc, ih ht]

theorem splitLines_append : ∀ a c : List Char,
    splitLines (a ++ c)
      = (splitLines a).dropLast
          ++ consFirst (lastSegment (splitLines a)) (splitLines c)
  | [], c => by
    show splitLines c
      = ([[]] : List (List Char)).dropLast
          ++ consFirst (lastSegment [[]]) (splitLines c)
    cases h : splitLines c with
    | nil => exact absurd h (splitLines_ne_nil c)
    | cons hd tl => simp [consFirst, lastSegment]
  | ch :: a', c => by
    by_cases hch : ch = '\n'
    · subst hch
      have h1 : splitLines ('\n' :: (a' ++ c)) = [] :: splitLines (a' ++ c) := by
        simp [splitLines]
      have h2 : splitLines ('\n' :: a') = [] :: splitLines a' := by
        simp [splitLines]
      rw [List.cons_append, h1, h2, splitLines_append a' c]
      cases h : splitLines a' with
      | nil => exact absurd h (splitLines_ne_nil a')
      | cons hd tl => rfl
    · have h1 : splitLines (ch :: (a' ++ c))
          = match splitLines (a' ++ c) with
            | [] => [[ch]]
            | h :: t => (ch :: h) :: t := by
        simp [splitLines, hch]
      have h2 : splitLines (ch :: a')
          = match splitLines a' with
            | [] => [[ch]]
            | h :: t => (ch :: h) :: t := by
        simp [splitLines, hch]
      rw [List.cons_append, h1, h2]
      cases ha : splitLines a' with
      | nil => exact absurd ha (splitLines_ne_nil a')
      | cons hd tl =>
        have hrec := splitLines_append a' c
        rw [ha] at hrec
        cases hc : splitLines c with
        | nil => exact absurd hc (splitLines_ne_nil c)
        | cons sh st =>
          rw [hc] at hrec
          cases tl with
          | nil =>
            simp only [consFirst, lastSegment, List.dropLast_single,
              List.nil_append] at hrec
            rw [hrec]
            simp [consFirst, lastSegment]
          | cons t0 ts =>
            rw [hrec]
            rfl

theorem newline_not_in_lastSegment : ∀ l : List Char,
    '\n' ∉ lastSegment (splitLines l)
  | [] => by simp [splitLines, lastSegment]
  | c :: rest => by
    by_cases hc : c = '\n'
    · subst hc
      have h1 : splitLines ('\n' :: rest) = [] :: splitLines rest := by
        simp [splitLines]
      rw [h1]
      cases h : splitLines rest with
      | nil => exact absurd h (splitLines_ne_nil rest)
      | cons hd tl =>
        have ihr := newline_not_in_lastSegment rest
        rw [h] at ihr
        exact ihr
    · have h1 : splitLines (c :: rest)
          = match splitLines rest with
            | [] => [[c]]
            | h :: t => (c :: h) :: t := by
        simp [splitLines, hc]
      rw [h1]
      cases h : splitLines rest with
      | nil => exact absurd h (splitLines_ne_nil rest)
      | cons hd tl =>
        have ihr := newline_not_in_lastSegment rest
        rw [h] at ihr
        cases tl with
        | nil =>
          simp only [lastSegment] at ihr ⊢
          intro hm
          rcases List.mem_cons.mp hm with he | hm'
          · exact hc he.symm
          · exact ihr hm'
        | cons t0 ts => exact ihr

theorem processLines_append (xs ys : List (List Char)) :
    processLines (xs ++ ys)
      = match processLines xs with
        | some r => some r
        | none => processLines ys := by
  induction xs with
  | nil => rfl
  | cons l rest ih =>
    cases h1 : (trimChars l).isEmpty with
    | true => simpa [processLines, h1] using ih
    | false =>
      cases h2 : isGreeting l with
      | true => simpa [processLines, h1, h2] using ih
      | false =>
        cases hp : jsonParse l with
        | some v => simp [processLines, h1, h2, hp]
        | none =>
          have h3 : (trimChars l).length > 0 := by
            have : trimChars l ≠ [] := by
              intro e
              rw [e] at h1
              simp at h1
            exact List.length_pos.mpr this
          simp [processLines, h1, h2, hp, h3]

theorem foldl_stepEvent_settled (evs : List Event) (s : SessionState)
    (o : Outcome) (h : s.outcome = some o) :
    List.foldl stepEvent s evs = s := by
  induction evs with
  | nil => rfl
  | cons e rest ih =>
    have hs : stepEvent s e = s := by
      unfold stepEvent
      rw [h]
    rw [List.foldl_cons, hs]
    exact ih

theorem runData_outcome : ∀ (chunks : List (List Char)) (b : List Char),
    '\n' ∉ b →
    (List.foldl stepEvent { buffer := b, outcome := none }
        (chunks.map Event.data)).outcome
      = (processLines (completeLines (b ++ chunks.flatten))).map Outcome.resolved
  | [], b, hb => by
    simp [completeLines, splitLines_eq_single b hb, processLines]
  | c :: rest, b, hb => by
    rw [List.map_cons, List.foldl_cons]
    have hsplit : splitLines (b ++ (c :: rest).flatten)
        = (splitLines (b ++ c)).dropLast
            ++ consFirst (lastSegment (splitLines (b ++ c)))
                 (splitLines rest.flatten) := by
      rw [List.flatten_cons, ← List.append_assoc, splitLines_append (b ++ c)]
    have hbuf : '\n' ∉ lastSegment (splitLines (b ++ c)) :=
      newline_not_in_lastSegment (b ++ c)
    have htail : splitLines
        (lastSegment (splitLines (b ++ c)) ++ rest.flatten)
        = consFirst (lastSegment (splitLines (b ++ c)))
            (splitLines rest.flatten) := by
      rw [splitLines_append, splitLines_eq_single _ hbuf]
      rfl
    have hlines : completeLines (b ++ (c :: rest).flatten)
        = (splitLines (b ++ c)).dropLast
            ++ completeLines
                (lastSegment (splitLines (b ++ c)) ++ rest.flatten) := by
      unfold completeLines
      rw [hsplit, dropLast_append_ne _ (consFirst_ne_nil _ _), htail]
    cases hres : processLines (splitLines (b ++ c)).dropLast with
    | some r =>
      have hstep : stepEvent { buffer := b, outcome := none } (Event.data c)
          = { buffer := lastSegment (splitLines (b ++ c)),
              outcome := some (.resolved r) } := by
        unfold stepEvent
        simp [hres]
      rw [hstep, foldl_stepEvent_settled _ _ (.resolved r) rfl, hlines,
        processLines_append, hres]
      rfl
    | none =>
      have hstep : stepEvent { buffer := b, outcome := none } (Event.data c)
          = { buffer := lastSegment (splitLines (b ++ c)), outcome := none } := by
        unfold stepEvent
        simp [hres]
      rw [hstep, hlines, processLines_append, hres,
        runData_outcome rest (lastSegment (splitLines (b ++ c))) hbuf]

theorem processLines_eq_find (ls : List (List Char)) :
    processLines ls = (ls.find? lineAccepted).map respond := by
  induction ls with
  | nil => rfl
  | cons l rest ih =>
    cases h1 : (trimChars l).isEmpty with
    | true =>
      have ha : lineAccepted l = false := by simp [lineAccepted, h1]
      simpa [processLines, h1, List.find?, ha] using ih
    | false =>
      cases h2 : isGreeting l with
      | true =>
        have ha : lineAccepted l = false := by simp [lineAccepted, h1, h2]
        simpa [processLines, h1, h2, List.find?, ha] using ih
      | false =>
        have ha : lineAccepted l = true := by simp [lineAccepted, h1, h2]
        cases hp : jsonParse l with
        | some v => simp [processLines, h1, h2, hp, List.find?, ha, respond]
        | none =>
          have h3 : (trimChars l).length > 0 := by
            have : trimChars l ≠ [] := by
              intro e
              rw [e] at h1
              simp at h1
            exact List.length_pos.mpr this
          simp [processLines, h1, h2, hp, h3, List.find?, ha, respond]

/-! ### Claim theorems: transport client -/

/-- C3: over any sequence of inbound chunks, the session's outcome is the
response derived (JSON parse, else trimmed fallback text) from the first
complete line, in arrival order, that is neither empty/whitespace-only nor a
greeting line; greeting and empty lines never become the response, and once a
line is accepted no later line matters (the outcome is pinned to that first
accepted line of the whole stream). -/
theorem claim3_first_accepted_line (chunks : List (List Char)) :
    (runSession (chunks.map Event.data)).outcome
      = ((completeLines chunks.flatten).find? lineAccepted).map
          (fun l => Outcome.resolved (respond l)) := by
  have h := runData_outcome chunks [] (by simp)
  rw [List.nil_append] at h
  rw [show runSession (chunks.map Event.data)
      = List.foldl stepEvent { buffer := [], outcome := none }
          (chunks.map Event.data) from rfl]
  rw [h, processLines_eq_find]
  cases (completeLines chunks.flatten).find? lineAccepted <;> rfl

/-- C4: a JSON reply split across chunks — data events with the fragments of
a JSON line followed by the newline — leaves the session unresolved after the
first fragment, and after the second fragment resolves exactly once with the
parsed object. -/
theorem claim4_chunked_json :
    (runSession [Event.data ("\x7b\"ok\":tr".toList)]).outcome = none
    ∧ (runSession [Event.data ("\x7b\"ok\":tr".toList),
        Event.data ("ue\x7d\n".toList)]).outcome
        = some (Outcome.resolved (Response.parsed
            (Json.obj [("ok".toList, Json.bool true)])))
    ∧ (runSession [Event.data ("\x7b\"ok\":tr".toList)]).buffer
        = "\x7b\"ok\":tr".toList :=
  ⟨rfl, rfl, rfl⟩

/-- C5: a complete line that is non-empty after trimming, not a greeting,
and fails to parse as JSON settles the session successfully with the trimmed
literal text of the line as fallback response. -/
theorem claim5_fallback_text (l : List Char) (h1 : trimChars l ≠ [])
    (h2 : isGreeting l = false) (h3 : jsonParse l = none) (h4 : '\n' ∉ l) :
    (runSession [Event.data (l ++ ['\n'])]).outcome
      = some (Outcome.resolved (Response.fallback (trimChars l))) := by
  have hsp : splitLines (l ++ ['\n']) = [l, []] := by
    rw [splitLines_append, splitLines_eq_single l h4]
    simp [consFirst, lastSegment, splitLines]
  have e1 : (trimChars l).isEmpty = false := by
    cases he : trimChars l with
    | nil => exact absurd he h1
    | cons a t => rfl
  have e4 : (trimChars l).length > 0 := List.length_pos.mpr h1
  have hpl : processLines [l] = some (Response.fallback (trimChars l)) := by
    simp [processLines, e1, h2, h3, e4]
  show (stepEvent initialState (Event.data (l ++ ['\n']))).outcome = _
  unfold stepEvent initialState
  simp [hsp, hpl]

/-- C5 witness: the line `DONE` resolves with fallback text `DONE`. -/
theorem claim5_witness :
    (runSession [Event.data ("DONE".toList ++ ['\n'])]).outcome
      = some (Outcome.resolved (Response.fallback ("DONE".toList))) :=
  claim5_fallback_text ("DONE".toList) (by decide) (by decide) (by rfl)
    (by decide)

/-- C2 (code bug): the `close` handler only logs — it never settles the
session. A peer that closes the connection before any complete line was
received leaves the session with no terminal outcome at all, not with a
`ConnectionClosedEarly` failure. -/
theorem claim2_close_event_never_settles :
    (∀ s : SessionState, stepEvent s Event.close = s)
    ∧ (runSession [Event.data ("\x7b\"ok\":tr".toList), Event.close]).outcome
        = none := by
  constructor
  · intro s
    cases s with
    | mk buf oc => cases oc <;> rfl
  · rfl

/-- C10: greeting detection is substring containment — any complete line
containing `Welcome` or `Send JSON` anywhere is discarded and never becomes
the response, even when it is syntactically valid JSON. -/
theorem claim10_greeting_substring (l : List Char) (h4 : '\n' ∉ l)
    (h : (strIncludes l ("Welcome".toList)
          || strIncludes l ("Send JSON".toList)) = true) :
    processLines [l] = none
    ∧ (runSession [Event.data (l ++ ['\n'])]).outcome = none := by
  have hg : isGreeting l = true := h
  have hpl : processLines [l] = none := by
    cases e1 : (trimChars l).isEmpty with
    | true => simp [processLines, e1]
    | false => simp [processLines, e1, hg]
  refine ⟨hpl, ?_⟩
  have hsp : splitLines (l ++ ['\n']) = [l, []] := by
    rw [splitLines_append, splitLines_eq_single l h4]
    simp [consFirst, lastSegment, splitLines]
  show (stepEvent initialState (Event.data (l ++ ['\n']))).outcome = none
  unfold stepEvent initialState
  simp [hsp, hpl]

/-- The device reply used as C10's witness: a syntactically valid JSON line
that contains the substring `Welcome`. -/
def welcomeHomeLine : List Char := "\x7b\"reply\":\"Welcome home\"\x7d".toList

/-- C10 witness: `\x7b"reply":"Welcome home"\x7d` is valid JSON, yet the
client skips it as a greeting and never resolves with it. -/
theorem claim10_witness :
    (jsonParse welcomeHomeLine).isSome = true
    ∧ processLines [welcomeHomeLine] = none
    ∧ (runSession [Event.data (welcomeHomeLine ++ ['\n'])]).outcome = none :=
  ⟨by rfl, (claim10_greeting_substring welcomeHomeLine (by decide) (by decide)).1,
    (claim10_greeting_substring welcomeHomeLine (by decide) (by decide)).2⟩

/-! ### Claim theorems: validator and translator -/

/-- Inverting a successful orchestration: validation passed and the
translation produced the wire record. -/
theorem controlRobot_ok_elim {c : String} {p : Params} {w : WireRecord}
    (h : controlRobot c p = Except.ok w) :
    validateCommand c p = .ok () ∧ translateCmd c p = some w := by
  unfold controlRobot at h
  cases hval : validateCommand c p with
  | error e => rw [hval] at h; exact Except.noConfusion h
  | ok u =>
    cases u
    rw [hval] at h
    cases htr : translateCmd c p with
    | none => rw [htr] at h; exact Except.noConfusion h
    | some w' =>
      rw [htr] at h
      injection h with hw
      exact ⟨rfl, by rw [hw]⟩

/-- A successful validation of `speak` forces `text` to be a supplied,
non-empty string of length at most 500. -/
theorem validate_speak_text {p : Params}
    (h : validateCommand "speak" p = .ok ()) :
    ∃ s, p.text = some (PVal.str s) ∧ s ≠ "" ∧ s.length ≤ 500 := by
  unfold validateCommand at h
  split at h
  · exact Except.noConfusion h
  split at h
  · exact Except.noConfusion h
  split at h
  · exact Except.noConfusion h
  split at h
  · split at h
    · exact Except.noConfusion h
    split at h
    · exact Except.noConfusion h
    rename_i hreq hlen
    cases ht : p.text with
    | none => rw [ht] at hreq; exact absurd rfl hreq
    | some v =>
      cases v with
      | num n => rw [ht] at hreq; exact absurd rfl hreq
      | boolV b => rw [ht] at hreq; exact absurd rfl hreq
      | str s =>
        rw [ht] at hreq hlen
        refine ⟨s, rfl, ?_, ?_⟩
        · intro he
          exact hreq (by simp [textFalsyOrNotString, he])
        · have hl : textLength (some (PVal.str s)) = s.length := rfl
          rw [hl] at hlen
          exact Nat.not_lt.mp hlen
  · rename_i hne
    exact absurd rfl hne

/-- C1 counterexample: a supplied `speed: 0` for `forward` is replaced by
the default 500 in the wire record (truthiness defaulting), contradicting
the claim that a supplied 0 appears as 0. -/
theorem claim1_counterexample :
    controlRobot "forward" { pNone with speed := some 0 }
      = Except.ok [("action", PVal.str "move"), ("direction", PVal.str "forward"),
          ("speed", PVal.num 500), ("duration", PVal.num 0)]
    ∧ (500 : Int) ≠ 0 :=
  ⟨rfl, by decide⟩

/-- The movement and turret commands of the command table. -/
def moveCommands : List String :=
  ["forward", "backward", "left", "right", "turret_left", "turret_right"]

/-- The `action` column of the command table for movement/turret commands. -/
def tableAction (c : String) : String :=
  if c = "forward" ∨ c = "backward" ∨ c = "left" ∨ c = "right" then "move"
  else "turret"

/-- The `direction` column of the command table. -/
def tableDirection (c : String) : String :=
  if c = "forward" then "forward"
  else if c = "backward" then "backward"
  else if c = "left" ∨ c = "turret_left" then "left"
  else "right"

/-- The `speed default` column of the command table. -/
def tableSpeedDefault (c : String) : Int :=
  if c = "forward" ∨ c = "backward" then 500
  else if c = "left" ∨ c = "right" then 300
  else 200

/-- C1 amended: for every movement/turret command that passes validation,
the wire record carries the table's action/direction; the speed is the
supplied value when it is nonzero and the table default when it was omitted
or supplied as 0 (truthiness defaulting); the duration is the supplied value
(a supplied 0 stays 0, coinciding with the default) and 0 when omitted. -/
theorem claim1_amended (c : String) (p : Params) (hc : c ∈ moveCommands)
    (hv : validateCommand c p = .ok ()) :
    controlRobot c p
      = Except.ok [("action", PVal.str (tableAction c)),
          ("direction", PVal.str (tableDirection c)),
          ("speed", PVal.num (match p.speed with
            | some s => if s = 0 then tableSpeedDefault c else s
            | none => tableSpeedDefault c)),
          ("duration", PVal.num (match p.duration with
            | some d => d
            | none => 0))] := by
  fin_cases hc <;>
    (cases hdp : p.duration with
     | none =>
       simp [controlRobot, hv, translateCmd, buildCommand, assignFields,
         tableAction, tableDirection, tableSpeedDefault, orDefault, hdp]
     | some d =>
       by_cases hz : d = 0
       · simp [controlRobot, hv, translateCmd, buildCommand, assignFields,
           tableAction, tableDirection, tableSpeedDefault, orDefault, hdp, hz]
       · simp [controlRobot, hv, translateCmd, buildCommand, assignFields,
           tableAction, tableDirection, tableSpeedDefault, orDefault, hdp, hz])

/-- C1 amended witness: `left` with supplied speed 7 and duration 2 carries
exactly those values. -/
theorem claim1_amended_witness :
    controlRobot "left" { pNone with speed := some 7, duration := some 2 }
      = Except.ok [("action", PVal.str "move"), ("direction", PVal.str "left"),
          ("speed", PVal.num 7), ("duration", PVal.num 2)] := by
  have h := claim1_amended "left"
    { pNone with speed := some 7, duration := some 2 } (by decide) (by rfl)
  simpa using h

/-- C6: for a recognized command with a supplied speed outside [0, 2000] or
a supplied duration above 10, orchestration fails with the corresponding
range error and never produces a wire record, so no connection attempt is
made. -/
theorem claim6_out_of_range (c : String) (p : Params) (hc : c ∈ validCommands)
    (h : (∃ s, p.speed = some s ∧ (s < 0 ∨ s > 2000))
       ∨ (∃ d, p.duration = some d ∧ d > 10)) :
    controlRobot c p = Except.error VErr.speedRange
    ∨ controlRobot c p = Except.error VErr.durationRange := by
  have hmem : ¬ c ∉ validCommands := fun hn => hn hc
  cases hsc : speedCheckFails p with
  | true =>
    left
    unfold controlRobot validateCommand
    rw [if_neg hmem]
    simp [hsc]
  | false =>
    right
    have hdc : durationCheckFails p = true := by
      rcases h with ⟨s, hs, hrange⟩ | ⟨d, hd, hgt⟩
      · exfalso
        have : speedCheckFails p = true := by
          unfold speedCheckFails
          rw [hs]
          have hne : s ≠ 0 := by rcases hrange with h1 | h1 <;> omega
          rcases hrange with h1 | h1 <;> simp [hne, h1]
        rw [this] at hsc
        exact Bool.noConfusion hsc
      · unfold durationCheckFails
        rw [hd]
        have hne : d ≠ 0 := by omega
        simp [hne, hgt]
    unfold controlRobot validateCommand
    rw [if_neg hmem]
    simp [hsc, hdc]

/-- C6 witness: `forward` with speed 2001 fails with the speed range error
and yields no wire record. -/
theorem claim6_witness :
    controlRobot "forward" { pNone with speed := some 2001 }
      = Except.error VErr.speedRange
    ∨ controlRobot "forward" { pNone with speed := some 2001 }
      = Except.error VErr.durationRange :=
  claim6_out_of_range "forward" _ (by decide)
    (Or.inl ⟨2001, rfl, Or.inr (by norm_num)⟩)

/-- Modelled from the spec's command table (§4.1): the field names each
command's serialized Wire Action Record is supposed to carry, with beep's
`frequency`/`duration` present exactly when explicitly provided. Used only to
state the refinement claim C7 against the source-derived `controlRobot`. -/
def specFieldKeys (c : String) (p : Params) : List String :=
  if c ∈ moveCommands then ["action", "direction", "speed", "duration"]
  else if c ∈ ["stop", "stop_turret", "get_status", "get_help", "battery"] then
    ["action"]
  else if c = "joystick_control" then
    ["action", "l_left", "l_forward", "r_left", "r_forward"]
  else if c = "speak" then ["action", "text"]
  else if c = "beep" then
    "action" :: ((if p.frequency.isSome then ["frequency"] else []) ++
                 (if p.duration.isSome then ["duration"] else []))
  else []

/-- C7: every wire record produced by a successful orchestration carries
exactly the fields of the spec table for its command — parameterless commands
serialize only `action`, beep carries `frequency`/`duration` exactly when
explicitly provided, and no field is ever emitted as a null/empty
placeholder. -/
theorem claim7_field_presence (c : String) (p : Params) (w : WireRecord)
    (h : controlRobot c p = Except.ok w) :
    w.map Prod.fst = specFieldKeys c p := by
  obtain ⟨hval, htr⟩ := controlRobot_ok_elim h
  have hc : c ∈ validCommands := by
    by_contra hn
    unfold validateCommand at hval
    rw [if_pos hn] at hval
    exact Except.noConfusion hval
  clear h
  fin_cases hc
  case «0» =>
    obtain rfl := Option.some.inj htr
    rfl
  case «1» =>
    obtain rfl := Option.some.inj htr
    rfl
  case «2» =>
    obtain rfl := Option.some.inj htr
    rfl
  case «3» =>
    obtain rfl := Option.some.inj htr
    rfl
  case «4» =>
    obtain rfl := Option.some.inj htr
    rfl
  case «5» =>
    obtain rfl := Option.some.inj htr
    rfl
  case «6» =>
    obtain rfl := Option.some.inj htr
    rfl
  case «7» =>
    obtain rfl := Option.some.inj htr
    rfl
  case «8» =>
    obtain rfl := Option.some.inj htr
    rfl
  case «9» =>
    obtain rfl := Option.some.inj htr
    rfl
  case «10» =>
    obtain rfl := Option.some.inj htr
    rfl
  case «11» =>
    obtain ⟨s, hts, _, _⟩ := validate_speak_text hval
    rw [show translateCmd "speak" p
        = some (buildCommand "speak" none none none
            (match p.text with
             | some v => [("text", v)]
             | none => [])) from rfl, hts] at htr
    obtain rfl := Option.some.inj htr
    rfl
  case «12» =>
    obtain rfl := Option.some.inj htr
    rfl
  case «13» =>
    rw [show translateCmd "beep" p
        = some (buildCommand "beep" none none none
            ((match p.frequency with
              | some f => [("frequency", PVal.num f)]
              | none => []) ++
             (match p.duration with
              | some d => [("duration", PVal.num d)]
              | none => []))) from rfl] at htr
    cases hf : p.frequency with
    | none =>
      cases hd : p.duration with
      | none =>
        rw [hf, hd] at htr
        obtain rfl := Option.some.inj htr
        simp [specFieldKeys, moveCommands, buildCommand, assignFields,
          assignField, hf, hd]
      | some d =>
        rw [hf, hd] at htr
        obtain rfl := Option.some.inj htr
        simp [specFieldKeys, moveCommands, buildCommand, assignFields,
          assignField, hf, hd]
    | some f =>
      cases hd : p.duration with
      | none =>
        rw [hf, hd] at htr
        obtain rfl := Option.some.inj htr
        simp [specFieldKeys, moveCommands, buildCommand, assignFields,
          assignField, hf, hd]
      | some d =>
        rw [hf, hd] at htr
        obtain rfl := Option.some.inj htr
        simp [specFieldKeys, moveCommands, buildCommand, assignFields,
          assignField, hf, hd]

/-- C7 witness: `beep` with only a supplied frequency serializes exactly
`action` and `frequency`. -/
theorem claim7_witness :
    ([("action", PVal.str "beep"), ("frequency", PVal.num 440)] :
        WireRecord).map Prod.fst
      = specFieldKeys "beep" { pNone with frequency := some 440 } :=
  claim7_field_presence "beep" { pNone with frequency := some 440 } _ rfl

/-- C8 counterexample: the empty string has length at most 500, yet `speak`
with `text: ""` is rejected (the falsy-check treats it as missing), so the
claim that every supplied string of length at most 500 succeeds is false. -/
theorem claim8_counterexample :
    String.length "" ≤ 500
    ∧ validateCommand "speak" { pNone with text := some (PVal.str "") }
        = Except.error VErr.textRequired :=
  ⟨by decide, rfl⟩

/-- C8 amended: when the speed and duration guards pass, `speak` validation
succeeds exactly for a supplied non-empty string `text` of length at most
500 (so length 500 succeeds and length 501 fails); a missing, non-string, or
empty-string `text` is rejected as required-missing. -/
theorem claim8_amended (p : Params) (hs : speedCheckFails p = false)
    (hd : durationCheckFails p = false) :
    validateCommand "speak" p = Except.ok ()
      ↔ ∃ s, p.text = some (PVal.str s) ∧ s ≠ "" ∧ s.length ≤ 500 := by
  constructor
  · exact validate_speak_text
  · rintro ⟨s, ht, hne, hlen⟩
    unfold validateCommand
    rw [if_neg (by decide : ¬(("speak" : String) ∉ validCommands))]
    have hreq : textFalsyOrNotString p.text = false := by
      rw [ht]
      simp [textFalsyOrNotString, hne]
    have hl : ¬ (textLength p.text > 500) := by
      rw [ht]
      show ¬ (s.length > 500)
      omega
    simp [hs, hd, hreq, hl]

set_option maxRecDepth 4000 in
/-- C8 amended witness: a 500-character text is accepted. -/
theorem claim8_witness :
    validateCommand "speak"
        { pNone with text := some (PVal.str (String.mk (List.replicate 500 'a'))) }
      = Except.ok () :=
  (claim8_amended
      { pNone with text := some (PVal.str (String.mk (List.replicate 500 'a'))) }
      rfl rfl).mpr
    ⟨String.mk (List.replicate 500 'a'), rfl, by decide, by decide⟩

/-- C9: a supplied negative duration is not rejected — the `duration > 10`
guard is the only duration validation, so it passes for negative values, and
translation succeeds (producing a wire record) for every recognized command
with otherwise-valid parameters. -/
theorem claim9_negative_duration (c : String) (p : Params)
    (hc : c ∈ validCommands) (hd : ∃ d, p.duration = some d ∧ d < 0)
    (hs : speedCheckFails p = false)
    (ht : c = "speak" →
      textFalsyOrNotString p.text = false ∧ textLength p.text ≤ 500) :
    durationCheckFails p = false ∧ ∃ w, controlRobot c p = Except.ok w := by
  obtain ⟨d, hdd, hneg⟩ := hd
  have hdc : durationCheckFails p = false := by
    unfold durationCheckFails
    rw [hdd]
    have hng : ¬ (d > 10) := by omega
    simp [hng]
  refine ⟨hdc, ?_⟩
  have hval : validateCommand c p = .ok () := by
    unfold validateCommand
    rw [if_neg (fun hn => hn hc)]
    by_cases hsp : c = "speak"
    · obtain ⟨h1, h2⟩ := ht hsp
      have hl : ¬ (textLength p.text > 500) := by omega
      simp [hs, hdc, hsp, h1, hl]
    · simp [hs, hdc, hsp]
  have htr : ∃ w, translateCmd c p = some w := by
    fin_cases hc <;> exact ⟨_, rfl⟩
  obtain ⟨w, hw⟩ := htr
  refine ⟨w, ?_⟩
  unfold controlRobot
  rw [hval, hw]

/-- C9 witness: `forward` with duration −3 passes validation and translates. -/
theorem claim9_witness :
    durationCheckFails { pNone with duration := some (-3) } = false
    ∧ ∃ w, controlRobot "forward" { pNone with duration := some (-3) }
        = Except.ok w :=
  claim9_negative_duration "forward" { pNone with duration := some (-3) }
    (by decide) ⟨-3, rfl, by norm_num⟩ rfl
    (fun h => absurd h (by decide))

end MindstormsBridge
